import Mathlib

/-!
Shallow embedding of the adl-pharma-raw-scraper ingestion job
(`src/unnamed/part_000`): an idempotent paginated-ingestion reconciler.
The JavaScript source fetches pages from the CIMA endpoint, computes a
SHA-256 checksum over five tracked fields, and upserts each record into
a Postgres table keyed by `nregistro`, with a conditional write guarded
by `checksum IS DISTINCT FROM EXCLUDED.checksum`.

Modelling conventions:
- JavaScript strings are Lean `String`; nullable values are `Option`.
- The SHA-256 digest is idealized as an injective function of its input
  string, so the digest is represented by its preimage (the joined
  tracked-field string): two digests are equal exactly when the hash
  inputs are equal.  Equal inputs genuinely yield byte-identical SHA-256
  digests, and distinct inputs are assumed collision-free.
- Postgres is modelled as a list of rows; `ON CONFLICT (nregistro)` fires
  exactly when a row with the same non-null `nregistro` exists (SQL NULLs
  are pairwise distinct), and the `UNIQUE` constraint on `checksum`
  raises a storage error on violation.
- `process.exit` codes, the run record status, the error message and the
  list of attempted page fetches are collected in a `RunResult`.
-/

namespace PharmaRaw

/-- Source record as consumed by `checksumRecord` and the upsert in
`src/unnamed/part_000`: the five tracked fields (`nregistro`, `comerc`,
`estado.aut`, `estado.rev`, `estado.susp`) are kept in their JavaScript
stringified form (`String(x)`), `none` standing for a missing/null field;
`nombre`, `labtitular` and `labcomercializador` are archived but not
checksummed. -/
structure Record where
  nregistro : Option String
  nombre : Option String
  labtitular : Option String
  labcomercializador : Option String
  comerc : Option String
  estadoAut : Option String
  estadoRev : Option String
  estadoSusp : Option String
  deriving DecidableEq, Repr

/-- Tracked fields in the exact order of the array literal inside
`checksumRecord` (part_000 lines 21-27), after the `?? ""` null
normalization. -/
def trackedFields (r : Record) : List String :=
  [r.nregistro.getD "", r.comerc.getD "", r.estadoAut.getD "",
   r.estadoRev.getD "", r.estadoSusp.getD ""]

/-- JavaScript `Array.prototype.join("|")`. -/
def joinPipe : List String → String
  | [] => ""
  | [s] => s
  | s :: rest => s ++ "|" ++ joinPipe rest

/-- Hash input of `checksumRecord` (part_000 lines 18-30): the tracked
fields joined with `"|"`.  The SHA-256 digest is idealized as injective,
so the digest is represented by its preimage string (see module header). -/
def checksumRecord (r : Record) : String :=
  joinPipe (trackedFields r)

/-- Persisted row of `pharma_raw.medicamentos` (the `id SERIAL` surrogate
key is omitted; no claim mentions it). -/
structure Row where
  nregistro : Option String
  nombre : Option String
  labtitular : Option String
  labcomercializador : Option String
  comerc : Option String
  estado_aut : Option String
  estado_rev : Option String
  estado_susp : Option String
  checksum : String
  payload : Record
  fetched_at : Nat
  deriving DecidableEq, Repr

/-- Row built by the INSERT arm of `upsertStmt` (and by its DO UPDATE arm,
which sets every listed column from EXCLUDED plus `fetched_at = now()`). -/
def mkRow (r : Record) (cs : String) (now : Nat) : Row :=
  { nregistro := r.nregistro, nombre := r.nombre, labtitular := r.labtitular,
    labcomercializador := r.labcomercializador, comerc := r.comerc,
    estado_aut := r.estadoAut, estado_rev := r.estadoRev,
    estado_susp := r.estadoSusp, checksum := cs, payload := r,
    fetched_at := now }

/-- Lookup by the unique index on `nregistro`; a SQL NULL key never
matches (NULLs are pairwise distinct), hence the key is a plain `String`. -/
def findRow : List Row → String → Option Row
  | [], _ => none
  | row :: rest, k => if row.nregistro = some k then some row else findRow rest k

/-- Existence test for the `UNIQUE` constraint on `checksum`. -/
def hasChecksum : List Row → String → Bool
  | [], _ => false
  | row :: rest, cs => row.checksum = cs || hasChecksum rest cs

/-- Existence test for the `checksum` uniqueness constraint restricted to
rows other than the one keyed by `k` (the row being updated). -/
def hasChecksumExcept : List Row → String → String → Bool
  | [], _, _ => false
  | row :: rest, k, cs =>
      (row.nregistro ≠ some k && row.checksum = cs) || hasChecksumExcept rest k cs

/-- First-match in-place replacement of the row keyed by `k` (the unique
index guarantees at most one conflicting row). -/
def updateRow : List Row → String → Row → List Row
  | [], _, _ => []
  | row :: rest, k, nr =>
      if row.nregistro = some k then nr :: rest else row :: updateRow rest k nr

/-- Outcome classification of one upsert, as decoded from
`res.rowCount` and the `(xmax = 0) AS inserted` flag
(part_000 lines 120-127). -/
inductive Outcome
  | inserted
  | updated
  | unchanged
  deriving DecidableEq, Repr

/-- Semantics of `upsertStmt` (part_000 lines 85-102):
`INSERT ... ON CONFLICT (nregistro) DO UPDATE SET <all columns>,
fetched_at = now() WHERE medicamentos.checksum IS DISTINCT FROM
EXCLUDED.checksum RETURNING (xmax = 0) AS inserted`.
A NULL `nregistro` never triggers the conflict arm; the `UNIQUE`
constraint on `checksum` turns a duplicate digest on the insert or
update path into a storage error. -/
def upsert (store : List Row) (r : Record) (now : Nat) :
    Except String (List Row × Outcome) :=
  match r.nregistro with
  | none =>
      if hasChecksum store (checksumRecord r) then .error "unique_violation_checksum"
      else .ok (store ++ [mkRow r (checksumRecord r) now], .inserted)
  | some k =>
      match findRow store k with
      | none =>
          if hasChecksum store (checksumRecord r) then .error "unique_violation_checksum"
          else .ok (store ++ [mkRow r (checksumRecord r) now], .inserted)
      | some row =>
          if row.checksum = checksumRecord r then .ok (store, .unchanged)
          else if hasChecksumExcept store k (checksumRecord r) then
            .error "unique_violation_checksum"
          else .ok (updateRow store k (mkRow r (checksumRecord r) now), .updated)

/-- Aggregate counters `{ inserted, updated, unchanged, total }`
(part_000 line 68). -/
structure Stats where
  inserted : Nat
  updated : Nat
  unchanged : Nat
  total : Nat
  deriving DecidableEq, Repr

def zeroStats : Stats := { inserted := 0, updated := 0, unchanged := 0, total := 0 }

/-- Counter bumps of part_000 lines 120-127: `stats.total += 1` always,
plus exactly one of the three classification counters. -/
def bumpStats (s : Stats) : Outcome → Stats
  | .inserted => { s with inserted := s.inserted + 1, total := s.total + 1 }
  | .updated => { s with updated := s.updated + 1, total := s.total + 1 }
  | .unchanged => { s with unchanged := s.unchanged + 1, total := s.total + 1 }

/-- Body of the `for (const rec of rows)` loop in `processPage`: upsert
each record in page order, abort the page on a storage error. -/
def processRecords (store : List Row) (stats : Stats) (now : Nat) :
    List Record → Except String (List Row × Stats)
  | [] => .ok (store, stats)
  | r :: rest =>
      match upsert store r now with
      | .error e => .error e
      | .ok (store1, o) => processRecords store1 (bumpStats stats o) now rest

/-- Minimal JavaScript value universe needed to model the untrusted
`totalFilas` field of the first page (`Number(first.totalFilas || 0)`). -/
inductive JsVal
  | vnum (n : Int)
  | vstr (s : String)
  | vbool (b : Bool)
  | vnull
  deriving DecidableEq, Repr

/-- JavaScript truthiness for the values of `JsVal` (`0`, `""`, `false`
and `null` are falsy); a missing field (`none`) is falsy as well. -/
def jsTruthy : JsVal → Bool
  | .vnum n => n ≠ 0
  | .vstr s => s ≠ ""
  | .vbool b => b
  | .vnull => false

/-- JavaScript `x || 0` where `x` is the possibly-missing `totalFilas`. -/
def jsOrZero : Option JsVal → JsVal
  | none => .vnum 0
  | some v => if jsTruthy v then v else .vnum 0

/-- Decimal digit accumulator used to model JavaScript numeric-string
parsing; a non-digit character yields `none` (NaN). -/
def parseNat : List Char → Nat → Option Nat
  | [], acc => some acc
  | c :: rest, acc =>
      if 48 ≤ c.toNat ∧ c.toNat ≤ 57 then
        parseNat rest (acc * 10 + (c.toNat - 48))
      else none

/-- JavaScript numeric parsing of a non-empty string (decimal integers
with optional sign — the shape of CIMA totals); anything else is NaN. -/
def jsParseInt (s : String) : Option Int :=
  match s.data with
  | [] => some 0
  | c :: rest =>
      if c = '-' then
        if rest = [] then none else (parseNat rest 0).map (fun n => -(n : Int))
      else (parseNat (c :: rest) 0).map (fun n => (n : Int))

/-- JavaScript `Number(v)`; `none` models NaN.  Strings parse as decimal
integers (the CIMA totals are integers); a non-numeric string is NaN. -/
def jsToNumber : JsVal → Option Int
  | .vnum n => some n
  | .vstr s => if s = "" then some 0 else jsParseInt s
  | .vbool b => some (if b then 1 else 0)
  | .vnull => some 0

/-- One page of the remote response: the untrusted reported total and the
possibly-missing records array. -/
structure Page where
  totalFilas : Option JsVal
  resultados : Option (List Record)
  deriving DecidableEq, Repr

/-- Record extraction `pageData?.resultados || []` (part_000 line 105):
a missing records collection defaults to the empty sequence. -/
def extractRows (pg : Page) : List Record :=
  pg.resultados.getD []

/-- The `processPage` closure of part_000 lines 104-129. -/
def processPage (store : List Row) (stats : Stats) (now : Nat) (pg : Page) :
    Except String (List Row × Stats) :=
  processRecords store stats now (extractRows pg)

/-- `const total = Number(first.totalFilas || 0)` (part_000 line 79). -/
def computeTotal (pg : Page) : Option Int :=
  jsToNumber (jsOrZero pg.totalFilas)

/-- JavaScript `Math.ceil(a / b)` on an integer `a` and a positive integer
`b`, via the identity `ceil(a / b) = -floor((-a) / b)`. -/
def jsCeilDiv (a : Int) (b : Nat) : Int :=
  -(Int.fdiv (-a) b)

/-- Pagination planner `Math.min(Math.ceil(total / PAGE_SIZE), MAX_PAGES)`
(part_000 line 80). -/
def planPages (total : Int) (pageSize maxPages : Nat) : Int :=
  min (jsCeilDiv total pageSize) maxPages

/-- Total page count derived from the first page; `none` models the NaN
that `Number` yields on a non-numeric `totalFilas`. -/
def totalPagesOf (pg : Page) (pageSize maxPages : Nat) : Option Int :=
  (computeTotal pg).map (fun t => planPages t pageSize maxPages)

/-- Pages visited by `for (let page = 2; page <= totalPages; page++)`:
none when `totalPages` is NaN (every comparison with NaN is false),
otherwise `[2, ..., totalPages]`. -/
def laterPages : Option Int → List Nat
  | none => []
  | some tp => List.range' 2 (tp - 1).toNat

/-- Message stored by the catch block, `String(err?.message || err)`: a
thrown error with an empty message still stringifies to a non-empty
text (for example `"Error"`). -/
def errString (e : String) : String :=
  if e = "" then "Error" else e

/-- Status column of the `pipeline_runs` row for this invocation. -/
inductive RunStatus
  | running
  | ok
  | error
  deriving DecidableEq, Repr

/-- State carried out of the page loop: persisted rows, accumulated
stats, pages whose fetch was attempted, and the first error if any. -/
structure LoopResult where
  store : List Row
  stats : Stats
  fetched : List Nat
  err : Option String
  deriving DecidableEq, Repr

/-- The `for (let page = 2; page <= totalPages; page++)` loop of part_000
lines 132-138: fetch then reconcile each page strictly in order, aborting
on the first transport or storage error. -/
def runPages (fetch : Nat → Except String Page) (now : Nat) :
    List Nat → List Row → Stats → List Nat → LoopResult
  | [], store, stats, fetched =>
      { store := store, stats := stats, fetched := fetched, err := none }
  | p :: rest, store, stats, fetched =>
      match fetch p with
      | .error e =>
          { store := store, stats := stats, fetched := fetched ++ [p],
            err := some (errString e) }
      | .ok pg =>
          match processPage store stats now pg with
          | .error e =>
              { store := store, stats := stats, fetched := fetched ++ [p],
                err := some (errString e) }
          | .ok (store1, stats1) => runPages fetch now rest store1 stats1 (fetched ++ [p])

/-- Observable outcome of one invocation of `main`. -/
structure RunResult where
  exitCode : Nat
  status : RunStatus
  errorMsg : Option String
  store : List Row
  stats : Stats
  pagesFetched : List Nat
  deriving DecidableEq, Repr

/-- The `main` function of part_000 lines 64-163: create the run record
(`running`), fetch page 1, derive the plan, reconcile page 1 immediately,
loop over pages `2..totalPages`, then finalize the run record to `ok`
(exit 0) or, from the catch block, to `error` (exit 1). -/
def runMain (fetch : Nat → Except String Page) (now pageSize maxPages : Nat)
    (store0 : List Row) : RunResult :=
  match fetch 1 with
  | .error e =>
      { exitCode := 1, status := .error, errorMsg := some (errString e),
        store := store0, stats := zeroStats, pagesFetched := [1] }
  | .ok first =>
      match processPage store0 zeroStats now first with
      | .error e =>
          { exitCode := 1, status := .error, errorMsg := some (errString e),
            store := store0, stats := zeroStats, pagesFetched := [1] }
      | .ok (store1, stats1) =>
          let res := runPages fetch now
            (laterPages (totalPagesOf first pageSize maxPages)) store1 stats1 [1]
          match res.err with
          | some m =>
              { exitCode := 1, status := .error, errorMsg := some m,
                store := res.store, stats := res.stats, pagesFetched := res.fetched }
          | none =>
              { exitCode := 0, status := .ok, errorMsg := none,
                store := res.store, stats := res.stats, pagesFetched := res.fetched }

/-- Stats bump of a page where every record turns out unchanged. -/
def bumpUnchanged (s : Stats) (n : Nat) : Stats :=
  { s with unchanged := s.unchanged + n, total := s.total + n }

/-- Separator-freedom of a field value: the `"|"`-joined hash input can
be parsed back unambiguously only when no value contains `"|"`. -/
def sepFree (s : String) : Prop := '|' ∉ s.data

instance (s : String) : Decidable (sepFree s) := by
  unfold sepFree; infer_instance

/-! ### Concrete inputs used to exercise the embedding -/

def recA : Record :=
  ⟨some "A1", some "med a", none, none, some "true", some "1", some "2", some "0"⟩

def recB : Record :=
  ⟨some "B2", some "med b", none, none, some "false", some "3", some "4", some "0"⟩

def demoRecs : List Record := [recA, recB]

/-- Persisted table after a first run of `demoRecs` over an empty store. -/
def demoStore : List Row :=
  [mkRow recA (checksumRecord recA) 0, mkRow recB (checksumRecord recB) 0]

/-- Separator-ambiguity pair: same identity key, different `comerc`, but
identical hash input `"n|a|b||r|s"` because field values contain `"|"`. -/
def rSep1 : Record :=
  ⟨some "n", none, none, none, some "a|b", some "", some "r", some "s"⟩

def rSep2 : Record :=
  ⟨some "n", none, none, none, some "a", some "b", some "", some "r|s"⟩

/-- Null-conflation pair: `comerc` missing versus `comerc` empty both
normalize to `""` before hashing. -/
def rNul1 : Record :=
  ⟨some "n", none, none, none, none, some "x", some "y", some "z"⟩

def rNul2 : Record :=
  ⟨some "n", none, none, none, some "", some "x", some "y", some "z"⟩

/-- Separator-free pair sharing an identity key, differing in `comerc`. -/
def rTrkA : Record :=
  ⟨some "n", none, none, none, some "1", some "2", some "3", some "4"⟩

def rTrkB : Record :=
  ⟨some "n", none, none, none, some "9", some "2", some "3", some "4"⟩

/-- Pair with identical tracked fields but different untracked fields. -/
def rUntrA : Record :=
  ⟨some "u", some "name one", none, none, some "1", some "2", some "3", some "4"⟩

def rUntrB : Record :=
  ⟨some "u", some "name two", some "lab", none, some "1", some "2", some "3", some "4"⟩

/-- Page whose response is missing the `resultados` collection. -/
def malformedPage : Page := ⟨some (.vnum 5), none⟩

/-- First page reporting `totalFilas = 0` with a non-empty records array. -/
def zeroPage : Page := ⟨some (.vnum 0), some [recA]⟩

/-- First page whose `totalFilas` is a non-numeric string. -/
def badTotalPage : Page := ⟨some (.vstr "n/a"), some []⟩

/-- Healthy page reporting 900 records in total. -/
def pageOk : Page := ⟨some (.vnum 900), some [recA]⟩

/-- Transport oracle that fails on page 3 and succeeds elsewhere. -/
def fetchFail3 : Nat → Except String Page :=
  fun p => if p = 3 then .error "boom" else .ok pageOk

def fetchZero : Nat → Except String Page := fun _ => .ok zeroPage

def fetchBadTotal : Nat → Except String Page := fun _ => .ok badTotalPage

def fetchMalformed : Nat → Except String Page := fun _ => .ok malformedPage

/-! ### Store lemmas -/

theorem findRow_append_of_ne (store : List Row) (x : Row) (k : String)
    (hx : x.nregistro ≠ some k) : findRow (store ++ [x]) k = findRow store k := by
  induction store with
  | nil => simp [findRow, hx]
  | cons row rest ih => by_cases h : row.nregistro = some k <;> simp [findRow, h, ih]

theorem findRow_append_last (store : List Row) (x : Row) (k : String)
    (h : findRow store k = none) :
    findRow (store ++ [x]) k = if x.nregistro = some k then some x else none := by
  induction store with
  | nil => rfl
  | cons row rest ih =>
      by_cases hr : row.nregistro = some k
      · simp [findRow, hr] at h
      · simp only [findRow, hr, if_false] at h
        simp only [List.cons_append, findRow, hr, if_false]
        exact ih h

theorem findRow_updateRow_self (store : List Row) (k : String) (nr row : Row)
    (hnr : nr.nregistro = some k) (h : findRow store k = some row) :
    findRow (updateRow store k nr) k = some nr := by
  induction store with
  | nil => simp [findRow] at h
  | cons r0 rest ih =>
      by_cases hr : r0.nregistro = some k
      · simp [updateRow, hr, findRow, hnr]
      · simp only [findRow, hr, if_false] at h
        simp [updateRow, hr, findRow, ih h]

theorem findRow_updateRow_ne (store : List Row) (k k2 : String) (nr : Row)
    (hnr : nr.nregistro = some k) (hne : k2 ≠ k) :
    findRow (updateRow store k nr) k2 = findRow store k2 := by
  have hkk : k ≠ k2 := fun h => hne h.symm
  induction store with
  | nil => simp [updateRow]
  | cons r0 rest ih =>
      by_cases hr : r0.nregistro = some k
      · have h1 : nr.nregistro ≠ some k2 := by simp [hnr, hkk]
        have h2 : r0.nregistro ≠ some k2 := by simp [hr, hkk]
        simp [updateRow, hr, findRow, h1, h2, hkk]
      · simp [updateRow, hr, findRow, ih]

/-- Inversion of a successful upsert: exactly one of the three branches
of `upsertStmt` fired, with the corresponding store transformation. -/
theorem upsert_ok_inv (store : List Row) (r : Record) (now : Nat)
    (store1 : List Row) (o : Outcome)
    (h : upsert store r now = .ok (store1, o)) :
    (o = .inserted ∧ store1 = store ++ [mkRow r (checksumRecord r) now] ∧
       (r.nregistro = none ∨ ∃ k, r.nregistro = some k ∧ findRow store k = none) ∧
       hasChecksum store (checksumRecord r) = false)
    ∨ (∃ k row, o = .unchanged ∧ store1 = store ∧ r.nregistro = some k ∧
         findRow store k = some row ∧ row.checksum = checksumRecord r)
    ∨ (∃ k row, o = .updated ∧
         store1 = updateRow store k (mkRow r (checksumRecord r) now) ∧
         r.nregistro = some k ∧ findRow store k = some row ∧
         row.checksum ≠ checksumRecord r ∧
         hasChecksumExcept store k (checksumRecord r) = false) := by
  cases hreg : r.nregistro with
  | none =>
      cases hcs : hasChecksum store (checksumRecord r) with
      | true => simp [upsert, hreg, hcs] at h
      | false =>
          simp [upsert, hreg, hcs] at h
          exact Or.inl ⟨h.2.symm, h.1.symm, Or.inl rfl, rfl⟩
  | some k =>
      cases hf : findRow store k with
      | none =>
          cases hcs : hasChecksum store (checksumRecord r) with
          | true => simp [upsert, hreg, hf, hcs] at h
          | false =>
              simp [upsert, hreg, hf, hcs] at h
              exact Or.inl ⟨h.2.symm, h.1.symm, Or.inr ⟨k, rfl, hf⟩, rfl⟩
      | some row =>
          by_cases heq : row.checksum = checksumRecord r
          · simp [upsert, hreg, hf, heq] at h
            exact Or.inr (Or.inl ⟨k, row, h.2.symm, h.1.symm, rfl, hf, heq⟩)
          · cases hex : hasChecksumExcept store k (checksumRecord r) with
            | true => simp [upsert, hreg, hf, heq, hex] at h
            | false =>
                simp [upsert, hreg, hf, heq, hex] at h
                exact Or.inr (Or.inr ⟨k, row, h.2.symm, h.1.symm, rfl, hf, heq, hex⟩)

/-- Upserting a record leaves every row keyed by a different identity
untouched, as seen through `findRow`. -/
theorem upsert_findRow_other (store : List Row) (r : Record) (now : Nat) (k : String)
    (store1 : List Row) (o : Outcome) (hne : r.nregistro ≠ some k)
    (h : upsert store r now = .ok (store1, o)) :
    findRow store1 k = findRow store k := by
  rcases upsert_ok_inv store r now store1 o h with
    ⟨_, hst, _, _⟩ | ⟨k0, row, _, hst, _, _, _⟩ |
    ⟨k0, row, _, hst, hreg, _, _, _⟩
  · rw [hst]
    exact findRow_append_of_ne store _ k (by simpa [mkRow] using hne)
  · rw [hst]
  · rw [hst]
    refine findRow_updateRow_ne store k0 k _ (by simp [mkRow, hreg]) ?_
    intro he
    exact hne (by rw [hreg, he])

/-- After a successful upsert of a record whose identity key is `k`, the
store holds a row keyed by `k` carrying exactly the record's checksum. -/
theorem upsert_findRow_self (store : List Row) (r : Record) (now : Nat) (k : String)
    (store1 : List Row) (o : Outcome) (hk : r.nregistro = some k)
    (h : upsert store r now = .ok (store1, o)) :
    ∃ row, findRow store1 k = some row ∧ row.checksum = checksumRecord r := by
  rcases upsert_ok_inv store r now store1 o h with
    ⟨_, hst, hcase, _⟩ | ⟨k0, row, _, hst, hreg, hf, heq⟩ |
    ⟨k0, row, _, hst, hreg, hf, _, _⟩
  · rcases hcase with hnone | ⟨k0, hreg, hf⟩
    · rw [hk] at hnone; exact absurd hnone (by simp)
    · have hk0 : k = k0 := by rw [hk] at hreg; exact Option.some.inj hreg
      subst hk0
      refine ⟨mkRow r (checksumRecord r) now, ?_, rfl⟩
      rw [hst, findRow_append_last store _ k hf]
      simp [mkRow, hk]
  · have hk0 : k = k0 := by rw [hk] at hreg; exact Option.some.inj hreg
    subst hk0
    exact ⟨row, by rw [hst]; exact hf, heq⟩
  · have hk0 : k = k0 := by rw [hk] at hreg; exact Option.some.inj hreg
    subst hk0
    refine ⟨mkRow r (checksumRecord r) now, ?_, rfl⟩
    rw [hst]
    exact findRow_updateRow_self store k _ row (by simp [mkRow, hk]) hf

/-- A successful page run leaves rows keyed outside the page untouched. -/
theorem processRecords_findRow_other (k : String) (recs : List Record) :
    ∀ store stats now store1 s1,
    processRecords store stats now recs = .ok (store1, s1) →
    (∀ r ∈ recs, r.nregistro ≠ some k) →
    findRow store1 k = findRow store k := by
  induction recs with
  | nil =>
      intro store stats now store1 s1 h _
      simp only [processRecords, Except.ok.injEq, Prod.mk.injEq] at h
      rw [← h.1]
  | cons r rest ih =>
      intro store stats now store1 s1 h hne
      simp only [processRecords] at h
      cases hu : upsert store r now with
      | error e => rw [hu] at h; simp at h
      | ok p =>
          obtain ⟨st, o⟩ := p
          rw [hu] at h
          have h1 := ih st (bumpStats stats o) now store1 s1 h
            (fun r2 hr2 => hne r2 (List.mem_cons_of_mem _ hr2))
          rw [h1]
          exact upsert_findRow_other store r now k st o (hne r (List.mem_cons_self _ _)) hu

/-- After a successful run over a page of pairwise-distinct identity keys,
every record of the page has a persisted row carrying its checksum. -/
theorem processRecords_post (recs : List Record) :
    ∀ store stats now store1 s1,
    recs.Pairwise (fun a b => a.nregistro ≠ b.nregistro) →
    processRecords store stats now recs = .ok (store1, s1) →
    ∀ r ∈ recs, ∀ kr, r.nregistro = some kr →
    ∃ row, findRow store1 kr = some row ∧ row.checksum = checksumRecord r := by
  induction recs with
  | nil => intro store stats now store1 s1 _ _ r hr; exact absurd hr (List.not_mem_nil r)
  | cons r0 rest ih =>
      intro store stats now store1 s1 hpw h r hr kr hkr
      simp only [processRecords] at h
      cases hu : upsert store r0 now with
      | error e => rw [hu] at h; simp at h
      | ok p =>
          obtain ⟨st, o⟩ := p
          rw [hu] at h
          rcases List.mem_cons.mp hr with hr0 | hrest
          · subst hr0
            have hself := upsert_findRow_self store r now kr st o hkr hu
            obtain ⟨row, hrow, hcs⟩ := hself
            have hpres : findRow store1 kr = findRow st kr := by
              refine processRecords_findRow_other kr rest st (bumpStats stats o) now store1 s1 h ?_
              intro r2 hr2 hr2k
              exact (List.pairwise_cons.mp hpw).1 r2 hr2 (by rw [hkr, hr2k])
            exact ⟨row, by rw [hpres]; exact hrow, hcs⟩
          · exact ih st (bumpStats stats o) now store1 s1
              (List.pairwise_cons.mp hpw).2 h r hrest kr hkr

/-- Second-run lemma: when every record of the page already has a
persisted row with an identical checksum, the whole page reconciles to
`unchanged`, leaving the store untouched. -/
theorem processRecords_all_unchanged (recs : List Record) :
    ∀ store stats now,
    (∀ r ∈ recs, ∃ kr row, r.nregistro = some kr ∧
      findRow store kr = some row ∧ row.checksum = checksumRecord r) →
    processRecords store stats now recs = .ok (store, bumpUnchanged stats recs.length) := by
  induction recs with
  | nil => intro store stats now _; simp [processRecords, bumpUnchanged]
  | cons r rest ih =>
      intro store stats now hinv
      obtain ⟨kr, row, hkr, hfind, hcs⟩ := hinv r (List.mem_cons_self _ _)
      have hu : upsert store r now = .ok (store, .unchanged) := by
        simp [upsert, hkr, hfind, hcs]
      simp only [processRecords, hu]
      have h2 := ih store (bumpStats stats .unchanged) now
        (fun r2 hr2 => hinv r2 (List.mem_cons_of_mem _ hr2))
      rw [h2]
      have : bumpUnchanged (bumpStats stats .unchanged) rest.length =
          bumpUnchanged stats (r :: rest).length := by
        simp [bumpUnchanged, bumpStats, Stats.mk.injEq]
        omega
      rw [this]

/-- Every processed record bumps `total` by exactly one. -/
theorem processRecords_total (recs : List Record) :
    ∀ store stats now store1 s1,
    processRecords store stats now recs = .ok (store1, s1) →
    s1.total = stats.total + recs.length := by
  induction recs with
  | nil =>
      intro store stats now store1 s1 h
      simp only [processRecords, Except.ok.injEq, Prod.mk.injEq] at h
      rw [← h.2]
      simp
  | cons r rest ih =>
      intro store stats now store1 s1 h
      simp only [processRecords] at h
      cases hu : upsert store r now with
      | error e => rw [hu] at h; simp at h
      | ok p =>
          obtain ⟨st, o⟩ := p
          rw [hu] at h
          have h1 := ih st (bumpStats stats o) now store1 s1 h
          have h2 : (bumpStats stats o).total = stats.total + 1 := by
            cases o <;> simp [bumpStats]
          rw [h1, h2]
          simp [List.length_cons]
          omega

/-! ### Checksum-input parsing lemmas -/

theorem pipe_cancel (a : List Char) :
    ∀ (b u v : List Char), '|' ∉ a → '|' ∉ b →
    a ++ '|' :: u = b ++ '|' :: v → a = b ∧ u = v := by
  induction a with
  | nil =>
      intro b u v _ hb h
      cases b with
      | nil => simpa using h
      | cons c bs =>
          simp only [List.nil_append, List.cons_append, List.cons.injEq] at h
          have hmem : ('|' : Char) ∈ c :: bs := by
            rw [h.1]; exact List.mem_cons_self c bs
          exact absurd hmem hb
  | cons c as ih =>
      intro b u v ha hb h
      cases b with
      | nil =>
          simp only [List.cons_append, List.nil_append, List.cons.injEq] at h
          have hmem : ('|' : Char) ∈ c :: as := by
            rw [← h.1]; exact List.mem_cons_self c as
          exact absurd hmem ha
      | cons d bs =>
          simp only [List.cons_append, List.cons.injEq] at h
          obtain ⟨hcd, htl⟩ := h
          have ha2 : '|' ∉ as := fun hm => ha (List.mem_cons_of_mem _ hm)
          have hb2 : '|' ∉ bs := fun hm => hb (List.mem_cons_of_mem _ hm)
          obtain ⟨hab, huv⟩ := ih bs u v ha2 hb2 htl
          exact ⟨by rw [hcd, hab], huv⟩

theorem pipe_cancel_str (a b u v : String) (ha : sepFree a) (hb : sepFree b)
    (h : a ++ "|" ++ u = b ++ "|" ++ v) : a = b ∧ u = v := by
  have hd := congrArg String.data h
  simp only [String.data_append] at hd
  have hd2 : a.data ++ '|' :: u.data = b.data ++ '|' :: v.data := by
    simpa [List.append_assoc, List.singleton_append] using hd
  obtain ⟨h1, h2⟩ := pipe_cancel a.data b.data u.data v.data ha hb hd2
  exact ⟨String.ext h1, String.ext h2⟩

/-- Explicit shape of the hash input of `checksumRecord`. -/
theorem checksumRecord_shape (r : Record) :
    checksumRecord r =
      r.nregistro.getD "" ++ "|" ++ (r.comerc.getD "" ++ "|" ++
        (r.estadoAut.getD "" ++ "|" ++
          (r.estadoRev.getD "" ++ "|" ++ r.estadoSusp.getD ""))) := rfl

/-- Injectivity of the hash input on separator-free tracked fields: equal
joined strings force equal normalized field values. -/
theorem checksum_inj (r1 r2 : Record)
    (h1 : ∀ s ∈ trackedFields r1, sepFree s)
    (h2 : ∀ s ∈ trackedFields r2, sepFree s)
    (h : checksumRecord r1 = checksumRecord r2) :
    trackedFields r1 = trackedFields r2 := by
  rw [checksumRecord_shape, checksumRecord_shape] at h
  have s11 : sepFree (r1.nregistro.getD "") := h1 _ (by simp [trackedFields])
  have s12 : sepFree (r1.comerc.getD "") := h1 _ (by simp [trackedFields])
  have s13 : sepFree (r1.estadoAut.getD "") := h1 _ (by simp [trackedFields])
  have s14 : sepFree (r1.estadoRev.getD "") := h1 _ (by simp [trackedFields])
  have s21 : sepFree (r2.nregistro.getD "") := h2 _ (by simp [trackedFields])
  have s22 : sepFree (r2.comerc.getD "") := h2 _ (by simp [trackedFields])
  have s23 : sepFree (r2.estadoAut.getD "") := h2 _ (by simp [trackedFields])
  have s24 : sepFree (r2.estadoRev.getD "") := h2 _ (by simp [trackedFields])
  obtain ⟨e1, h⟩ := pipe_cancel_str _ _ _ _ s11 s21 h
  obtain ⟨e2, h⟩ := pipe_cancel_str _ _ _ _ s12 s22 h
  obtain ⟨e3, h⟩ := pipe_cancel_str _ _ _ _ s13 s23 h
  obtain ⟨e4, e5⟩ := pipe_cancel_str _ _ _ _ s14 s24 h
  simp only [trackedFields, List.cons.injEq]
  exact ⟨e1, e2, e3, e4, e5, trivial⟩

/-! ### Orchestrator lemmas -/

theorem errString_ne (e : String) : errString e ≠ "" := by
  unfold errString
  by_cases h : e = ""
  · rw [if_pos h]; decide
  · rw [if_neg h]; exact h

theorem jsCeilDiv_natCast (t ps : Nat) (hps : 0 < ps) :
    jsCeilDiv (t : Int) ps = (((t + ps - 1) / ps : Nat) : Int) := by
  obtain ⟨n, rfl⟩ : ∃ n, ps = n + 1 := ⟨ps - 1, by omega⟩
  cases t with
  | zero =>
      have hz : jsCeilDiv ((0 : Nat) : Int) (n + 1) = 0 := rfl
      rw [hz]
      have h2 : (0 + (n + 1) - 1) / (n + 1) = 0 := by
        apply Nat.div_eq_of_lt; omega
      rw [h2]
      rfl
  | succ m =>
      have hs : jsCeilDiv ((m + 1 : Nat) : Int) (n + 1) =
          ((m / (n + 1) + 1 : Nat) : Int) := rfl
      rw [hs]
      have h2 : (m + 1 + (n + 1) - 1) / (n + 1) = m / (n + 1) + 1 := by
        have h3 : m + 1 + (n + 1) - 1 = m + (n + 1) := by omega
        rw [h3, Nat.add_div_right m (by omega)]
      rw [h2]

theorem planPages_natCast (t ps mp : Nat) (hps : 0 < ps) :
    planPages (t : Int) ps mp = ((min ((t + ps - 1) / ps) mp : Nat) : Int) := by
  unfold planPages
  rw [jsCeilDiv_natCast t ps hps, Nat.cast_min]

theorem planPages_le (total : Int) (ps mp : Nat) :
    planPages total ps mp ≤ (mp : Int) :=
  min_le_right _ _

theorem planPages_zero (ps mp : Nat) : planPages (0 : Int) ps mp = 0 := by
  have h1 : jsCeilDiv (0 : Int) ps = 0 := rfl
  unfold planPages
  rw [h1]
  exact min_eq_left (Int.natCast_nonneg mp)

theorem laterPages_none : laterPages none = [] := rfl

theorem laterPages_zero : laterPages (some 0) = [] := rfl

/-- Once some page of the loop range has a failing fetch, the loop ends
with a non-empty error and never attempts a page beyond the failing one. -/
theorem runPages_fail (fetch : Nat → Except String Page) (now k : Nat) (e : String)
    (hfail : fetch k = .error e) :
    ∀ (n a : Nat) (store : List Row) (stats : Stats) (fetched : List Nat),
    k ∈ List.range' a n →
    (∃ m, (runPages fetch now (List.range' a n) store stats fetched).err = some m ∧ m ≠ "")
    ∧ ∀ p ∈ (runPages fetch now (List.range' a n) store stats fetched).fetched,
        p ∈ fetched ∨ p ≤ k := by
  intro n
  induction n with
  | zero => intro a store stats fetched hmem; simp [List.range'] at hmem
  | succ n ih =>
      intro a store stats fetched hmem
      rw [List.range'_succ] at hmem ⊢
      have hak : a ≤ k := by
        rcases List.mem_cons.mp hmem with h | h
        · omega
        · have := (List.mem_range'_1.mp h).1; omega
      cases hfa : fetch a with
      | error e2 =>
          simp only [runPages, hfa]
          refine ⟨⟨errString e2, rfl, errString_ne e2⟩, ?_⟩
          intro p hp
          rcases List.mem_append.mp hp with h | h
          · exact Or.inl h
          · simp only [List.mem_singleton] at h
            omega
      | ok pg =>
          have hka : k ≠ a := by
            intro he; rw [he] at hfail; rw [hfail] at hfa; cases hfa
          have hmem2 : k ∈ List.range' (a + 1) n := by
            rcases List.mem_cons.mp hmem with h | h
            · exact absurd h hka
            · exact h
          cases hpr : processPage store stats now pg with
          | error e2 =>
              simp only [runPages, hfa, hpr]
              refine ⟨⟨errString e2, rfl, errString_ne e2⟩, ?_⟩
              intro p hp
              rcases List.mem_append.mp hp with h | h
              · exact Or.inl h
              · simp only [List.mem_singleton] at h
                omega
          | ok pr =>
              obtain ⟨store1, stats1⟩ := pr
              simp only [runPages, hfa, hpr]
              obtain ⟨herr, hfet⟩ := ih (a + 1) store1 stats1 (fetched ++ [a]) hmem2
              refine ⟨herr, ?_⟩
              intro p hp
              rcases hfet p hp with h | h
              · rcases List.mem_append.mp h with h2 | h2
                · exact Or.inl h2
                · simp only [List.mem_singleton] at h2
                  omega
              · exact Or.inr h

/-- When the plan schedules no later pages, `main` finishes in the `ok`
state with only page 1 fetched and reconciled. -/
theorem runMain_firstPageOnly (fetch : Nat → Except String Page)
    (now ps mp : Nat) (store0 : List Row) (pg : Page)
    (store1 : List Row) (s1 : Stats)
    (h1 : fetch 1 = .ok pg)
    (hlp : laterPages (totalPagesOf pg ps mp) = [])
    (hproc : processPage store0 zeroStats now pg = .ok (store1, s1)) :
    runMain fetch now ps mp store0 =
      { exitCode := 0, status := .ok, errorMsg := none, store := store1,
        stats := s1, pagesFetched := [1] } := by
  simp only [runMain, h1, hproc, hlp, runPages]

/-! ### Claim theorems -/

/-- C7: the fingerprint is pure and deterministic — it is untouched by
any change to the untracked fields (`nombre`, `labtitular`,
`labcomercializador`), and records with identical tracked-field values
always yield an identical digest. -/
theorem checksum_untracked_independent :
    (∀ (r : Record) (n lt lc : Option String),
      checksumRecord
          { r with nombre := n, labtitular := lt, labcomercializador := lc } =
        checksumRecord r)
    ∧ ∀ r1 r2 : Record, trackedFields r1 = trackedFields r2 →
        checksumRecord r1 = checksumRecord r2 := by
  constructor
  · intro r n lt lc; rfl
  · intro r1 r2 h
    unfold checksumRecord
    rw [h]

theorem checksum_untracked_independent_witness :
    checksumRecord rUntrA = checksumRecord rUntrB :=
  checksum_untracked_independent.2 rUntrA rUntrB (by decide)

/-- C3 counterexample: two records sharing an identity key and differing
in the tracked field `comerc` can still produce byte-identical digests —
either through separator ambiguity (a field value containing `"|"`) or
through the null/empty normalization (`null` and `""` hash alike).  The
SHA-256 of equal input strings is genuinely byte-identical, so this
refutes the claim as stated. -/
theorem checksum_collision_cex :
    (rSep1.nregistro = rSep2.nregistro ∧ rSep1.comerc ≠ rSep2.comerc ∧
      checksumRecord rSep1 = checksumRecord rSep2)
    ∧ (rNul1.nregistro = rNul2.nregistro ∧ rNul1.comerc ≠ rNul2.comerc ∧
      checksumRecord rNul1 = checksumRecord rNul2) := by
  decide

/-- C3 (amended): for records sharing an identity key whose normalized
tracked-field strings are separator-free, the fingerprint changes if and
only if some normalized tracked-field value changed. -/
theorem checksum_change_iff (r1 r2 : Record)
    (_hid : r1.nregistro = r2.nregistro)
    (h1 : ∀ s ∈ trackedFields r1, sepFree s)
    (h2 : ∀ s ∈ trackedFields r2, sepFree s) :
    (checksumRecord r1 = checksumRecord r2 ↔
      trackedFields r1 = trackedFields r2) := by
  constructor
  · exact checksum_inj r1 r2 h1 h2
  · intro h
    unfold checksumRecord
    rw [h]

theorem checksum_change_iff_witness :
    (checksumRecord rTrkA = checksumRecord rTrkB ↔
      trackedFields rTrkA = trackedFields rTrkB) :=
  checksum_change_iff rTrkA rTrkB rfl (by decide) (by decide)

/-- C4: the pagination planner computes
`min(ceil(total / page_size), max_pages)`, never exceeds `max_pages`
for any reported total, and yields 5 on the spec instance
(`total = 100000`, `page_size = 200`, `max_pages = 5`). -/
theorem planner_cap (t ps mp : Nat) (hps : 0 < ps) :
    planPages (t : Int) ps mp = ((min ((t + ps - 1) / ps) mp : Nat) : Int)
    ∧ (∀ s : Int, planPages s ps mp ≤ (mp : Int))
    ∧ planPages 100000 200 5 = 5 := by
  refine ⟨planPages_natCast t ps mp hps, fun s => planPages_le s ps mp, ?_⟩
  decide

theorem planner_cap_witness :
    0 < 200 ∧ planPages ((100000 : Nat) : Int) 200 5 =
      ((min ((100000 + 200 - 1) / 200) 5 : Nat) : Int) :=
  ⟨by decide, (planner_cap 100000 200 5 (by decide)).1⟩

/-- C2: a successful upsert of a record with identity key `k` is
classified `inserted` exactly when no row keyed by `k` existed,
`unchanged` exactly when such a row existed with an equal stored
fingerprint, `updated` exactly when it existed with a different stored
fingerprint; and the loop counts the record under exactly the
classification that occurred (plus the `total` counter). -/
theorem upsert_classification (store : List Row) (stats : Stats) (r : Record)
    (now : Nat) (k : String) (store1 : List Row) (o : Outcome)
    (hk : r.nregistro = some k)
    (h : upsert store r now = .ok (store1, o)) :
    (o = .inserted ↔ findRow store k = none)
    ∧ (o = .unchanged ↔
        ∃ row, findRow store k = some row ∧ row.checksum = checksumRecord r)
    ∧ (o = .updated ↔
        ∃ row, findRow store k = some row ∧ row.checksum ≠ checksumRecord r)
    ∧ processRecords store stats now [r] = .ok (store1, bumpStats stats o) := by
  have hloop : processRecords store stats now [r] = .ok (store1, bumpStats stats o) := by
    simp [processRecords, h]
  rcases upsert_ok_inv store r now store1 o h with
    ⟨ho, _, hcase, _⟩ | ⟨k0, row, ho, _, hreg, hf, heq⟩ |
    ⟨k0, row, ho, _, hreg, hf, hne, _⟩
  · rcases hcase with hnone | ⟨k0, hreg, hf⟩
    · rw [hk] at hnone
      exact Option.noConfusion hnone
    · have hkk : k = k0 := by rw [hk] at hreg; exact Option.some.inj hreg
      subst hkk
      subst ho
      refine ⟨⟨fun _ => hf, fun _ => rfl⟩, ?_, ?_, hloop⟩
      · constructor
        · intro hcon; exact absurd hcon (by decide)
        · rintro ⟨row, hrow, _⟩
          rw [hf] at hrow
          exact Option.noConfusion hrow
      · constructor
        · intro hcon; exact absurd hcon (by decide)
        · rintro ⟨row, hrow, _⟩
          rw [hf] at hrow
          exact Option.noConfusion hrow
  · have hkk : k = k0 := by rw [hk] at hreg; exact Option.some.inj hreg
    subst hkk
    subst ho
    refine ⟨?_, ⟨fun _ => ⟨row, hf, heq⟩, fun _ => rfl⟩, ?_, hloop⟩
    · constructor
      · intro hcon; exact absurd hcon (by decide)
      · intro hnone
        rw [hf] at hnone
        exact Option.noConfusion hnone
    · constructor
      · intro hcon; exact absurd hcon (by decide)
      · rintro ⟨row2, hrow2, hne2⟩
        rw [hf] at hrow2
        have hr : row = row2 := Option.some.inj hrow2
        rw [← hr] at hne2
        exact absurd heq hne2
  · have hkk : k = k0 := by rw [hk] at hreg; exact Option.some.inj hreg
    subst hkk
    subst ho
    refine ⟨?_, ?_, ⟨fun _ => ⟨row, hf, hne⟩, fun _ => rfl⟩, hloop⟩
    · constructor
      · intro hcon; exact absurd hcon (by decide)
      · intro hnone
        rw [hf] at hnone
        exact Option.noConfusion hnone
    · constructor
      · intro hcon; exact absurd hcon (by decide)
      · rintro ⟨row2, hrow2, heq2⟩
        rw [hf] at hrow2
        have hr : row = row2 := Option.some.inj hrow2
        rw [← hr] at heq2
        exact absurd heq2 hne

theorem upsert_classification_witness :
    ((Outcome.inserted = .inserted ↔ findRow ([] : List Row) "A1" = none)
    ∧ (Outcome.inserted = .unchanged ↔
        ∃ row, findRow ([] : List Row) "A1" = some row ∧
          row.checksum = checksumRecord recA)
    ∧ (Outcome.inserted = .updated ↔
        ∃ row, findRow ([] : List Row) "A1" = some row ∧
          row.checksum ≠ checksumRecord recA)
    ∧ processRecords [] zeroStats 1 [recA] =
        .ok ([mkRow recA (checksumRecord recA) 1], bumpStats zeroStats .inserted)) :=
  upsert_classification [] zeroStats recA 1 "A1"
    [mkRow recA (checksumRecord recA) 1] .inserted rfl rfl

/-- C5: with a persisted row for the record's identity key, a matching
fingerprint makes the upsert a complete no-op (the store is returned
unchanged, so no column and no `fetched_at` is touched), while a
differing fingerprint rewrites the row to `mkRow r cs now` — every
tracked-derived column, `payload`, `checksum` and `fetched_at` take the
new values. -/
theorem conditional_write (store : List Row) (r : Record) (now : Nat)
    (k : String) (row : Row)
    (hk : r.nregistro = some k) (hrow : findRow store k = some row) :
    (row.checksum = checksumRecord r →
      upsert store r now = .ok (store, .unchanged))
    ∧ (row.checksum ≠ checksumRecord r →
      hasChecksumExcept store k (checksumRecord r) = false →
      upsert store r now =
        .ok (updateRow store k (mkRow r (checksumRecord r) now), .updated)
      ∧ findRow (updateRow store k (mkRow r (checksumRecord r) now)) k =
          some (mkRow r (checksumRecord r) now)
      ∧ (mkRow r (checksumRecord r) now).fetched_at = now
      ∧ (mkRow r (checksumRecord r) now).payload = r
      ∧ (mkRow r (checksumRecord r) now).checksum = checksumRecord r) := by
  constructor
  · intro heq
    simp [upsert, hk, hrow, heq]
  · intro hne hex
    refine ⟨?_, ?_, rfl, rfl, rfl⟩
    · simp [upsert, hk, hrow, hne, hex]
    · exact findRow_updateRow_self store k _ row (by simp [mkRow, hk]) hrow

theorem conditional_write_witness :
    ((mkRow recA (checksumRecord recA) 0).checksum = checksumRecord recA →
      upsert demoStore recA 1 = .ok (demoStore, .unchanged))
    ∧ ((mkRow recA (checksumRecord recA) 0).checksum ≠ checksumRecord recA →
      hasChecksumExcept demoStore "A1" (checksumRecord recA) = false →
      upsert demoStore recA 1 =
        .ok (updateRow demoStore "A1" (mkRow recA (checksumRecord recA) 1), .updated)
      ∧ findRow (updateRow demoStore "A1" (mkRow recA (checksumRecord recA) 1)) "A1" =
          some (mkRow recA (checksumRecord recA) 1)
      ∧ (mkRow recA (checksumRecord recA) 1).fetched_at = 1
      ∧ (mkRow recA (checksumRecord recA) 1).payload = recA
      ∧ (mkRow recA (checksumRecord recA) 1).checksum = checksumRecord recA) :=
  conditional_write demoStore recA 1 "A1" (mkRow recA (checksumRecord recA) 0) rfl rfl

/-- C1: running the reconciler a second time over the same page — records
with present, pairwise-distinct identity keys and unchanged tracked
values — against the table left by the first run classifies every record
`unchanged` and yields stats `inserted = 0, updated = 0, unchanged = N,
total = N` where `N` is the page's record count. -/
theorem secondRun_allUnchanged (store0 : List Row) (recs : List Record)
    (now1 now2 : Nat) (store1 : List Row) (s1 : Stats)
    (hkeys : ∀ r ∈ recs, (r.nregistro).isSome)
    (hdis : recs.Pairwise (fun a b => a.nregistro ≠ b.nregistro))
    (h1 : processRecords store0 zeroStats now1 recs = .ok (store1, s1)) :
    processRecords store1 zeroStats now2 recs =
      .ok (store1, { inserted := 0, updated := 0,
                     unchanged := recs.length, total := recs.length }) := by
  have hinv : ∀ r ∈ recs, ∃ kr row, r.nregistro = some kr ∧
      findRow store1 kr = some row ∧ row.checksum = checksumRecord r := by
    intro r hr
    obtain ⟨kr, hkr⟩ := Option.isSome_iff_exists.mp (hkeys r hr)
    obtain ⟨row, hrow, hcs⟩ :=
      processRecords_post recs store0 zeroStats now1 store1 s1 hdis h1 r hr kr hkr
    exact ⟨kr, row, hkr, hrow, hcs⟩
  have h2 := processRecords_all_unchanged recs store1 zeroStats now2 hinv
  rw [h2]
  simp [bumpUnchanged, zeroStats]

theorem secondRun_allUnchanged_witness :
    processRecords demoStore zeroStats 1 demoRecs =
      .ok (demoStore, { inserted := 0, updated := 0, unchanged := 2, total := 2 }) :=
  secondRun_allUnchanged [] demoRecs 0 1 demoStore
    { inserted := 2, updated := 0, unchanged := 0, total := 2 }
    (by decide) (by decide) rfl

/-- C9: a page whose response is missing the `resultados` collection is
treated as an empty page — extraction yields `[]`, reconciling it
returns the store and stats untouched, and the page loop steps on to the
remaining pages instead of failing. -/
theorem malformed_page_empty (pg : Page) (hres : pg.resultados = none)
    (store : List Row) (stats : Stats) (now : Nat)
    (fetch : Nat → Except String Page) (p : Nat) (rest fetched : List Nat)
    (hp : fetch p = .ok pg) :
    extractRows pg = []
    ∧ processPage store stats now pg = .ok (store, stats)
    ∧ runPages fetch now (p :: rest) store stats fetched =
        runPages fetch now rest store stats (fetched ++ [p]) := by
  have he : extractRows pg = [] := by simp [extractRows, hres]
  have hpp : processPage store stats now pg = .ok (store, stats) := by
    simp [processPage, he, processRecords]
  refine ⟨he, hpp, ?_⟩
  simp only [runPages, hp, hpp]

theorem malformed_page_empty_witness :
    extractRows malformedPage = []
    ∧ processPage [] zeroStats 0 malformedPage = .ok ([], zeroStats)
    ∧ runPages fetchMalformed 0 [2, 3] [] zeroStats [1] =
        runPages fetchMalformed 0 [3] [] zeroStats ([1] ++ [2]) :=
  malformed_page_empty malformedPage rfl [] zeroStats 0 fetchMalformed 2 [3] [1] rfl

/-- C8: with a reported total of 0 the planner schedules no later pages,
yet the already-fetched first page is still reconciled record by record
(each bumps `total`), and the run completes in the success state with
exit code 0, having fetched only page 1. -/
theorem zero_total_first_page (fetch : Nat → Except String Page)
    (now ps mp : Nat) (store0 : List Row) (pg : Page)
    (store1 : List Row) (s1 : Stats)
    (h1 : fetch 1 = .ok pg) (htot : computeTotal pg = some 0)
    (hproc : processPage store0 zeroStats now pg = .ok (store1, s1)) :
    runMain fetch now ps mp store0 =
      { exitCode := 0, status := .ok, errorMsg := none, store := store1,
        stats := s1, pagesFetched := [1] }
    ∧ s1.total = (extractRows pg).length := by
  have hlp : laterPages (totalPagesOf pg ps mp) = [] := by
    unfold totalPagesOf
    rw [htot, Option.map_some', planPages_zero, laterPages_zero]
  refine ⟨runMain_firstPageOnly fetch now ps mp store0 pg store1 s1 h1 hlp hproc, ?_⟩
  have ht := processRecords_total (extractRows pg) store0 zeroStats now store1 s1 hproc
  simpa [zeroStats] using ht

theorem zero_total_first_page_witness :
    runMain fetchZero 0 200 200 [] =
      { exitCode := 0, status := .ok, errorMsg := none,
        store := [mkRow recA (checksumRecord recA) 0],
        stats := { inserted := 1, updated := 0, unchanged := 0, total := 1 },
        pagesFetched := [1] }
    ∧ ({ inserted := 1, updated := 0, unchanged := 0, total := 1 } : Stats).total =
        (extractRows zeroPage).length :=
  zero_total_first_page fetchZero 0 200 200 [] zeroPage
    [mkRow recA (checksumRecord recA) 0]
    { inserted := 1, updated := 0, unchanged := 0, total := 1 } rfl rfl rfl

/-- C10 counterexample: a non-numeric `totalFilas` string is not
normalized to 0 — `Number("n/a")` is NaN (modelled as `none`), refuting
the claim's normalization statement at this input. -/
theorem nonNumeric_total_nan_cex :
    computeTotal badTotalPage = none ∧ computeTotal badTotalPage ≠ some 0 := by
  have h : computeTotal badTotalPage = none := rfl
  exact ⟨h, by rw [h]; exact fun hc => Option.noConfusion hc⟩

/-- C10 (amended): a missing or null `totalFilas` is normalized to 0,
while a non-empty non-numeric string yields NaN rather than 0; in every
such case no later page is scheduled, only page 1's records are
reconciled, and the run completes in the success state. -/
theorem missing_total_first_page (fetch : Nat → Except String Page)
    (now ps mp : Nat) (store0 : List Row) (pg : Page)
    (store1 : List Row) (s1 : Stats)
    (h1 : fetch 1 = .ok pg)
    (htot : pg.totalFilas = none ∨ pg.totalFilas = some .vnull ∨
      ∃ s, pg.totalFilas = some (.vstr s) ∧ s ≠ "" ∧ jsParseInt s = none)
    (hproc : processPage store0 zeroStats now pg = .ok (store1, s1)) :
    ((pg.totalFilas = none ∨ pg.totalFilas = some .vnull) →
      computeTotal pg = some 0)
    ∧ runMain fetch now ps mp store0 =
        { exitCode := 0, status := .ok, errorMsg := none, store := store1,
          stats := s1, pagesFetched := [1] }
    ∧ s1.total = (extractRows pg).length := by
  have hfirst : (pg.totalFilas = none ∨ pg.totalFilas = some .vnull) →
      computeTotal pg = some 0 := by
    intro hc2
    rcases hc2 with hc2 | hc2 <;> (unfold computeTotal; rw [hc2]) <;> rfl
  have hlp : laterPages (totalPagesOf pg ps mp) = [] := by
    rcases htot with hc | hc | ⟨s, hc, hs1, hs2⟩
    · have hct : computeTotal pg = some 0 := hfirst (Or.inl hc)
      unfold totalPagesOf
      rw [hct, Option.map_some', planPages_zero, laterPages_zero]
    · have hct : computeTotal pg = some 0 := hfirst (Or.inr hc)
      unfold totalPagesOf
      rw [hct, Option.map_some', planPages_zero, laterPages_zero]
    · have hct : computeTotal pg = none := by
        unfold computeTotal
        rw [hc]
        have ht : jsTruthy (.vstr s) = true := by simp [jsTruthy, hs1]
        simp [jsOrZero, ht, jsToNumber, hs1, hs2]
      unfold totalPagesOf
      rw [hct]
      rfl
  refine ⟨hfirst,
    runMain_firstPageOnly fetch now ps mp store0 pg store1 s1 h1 hlp hproc, ?_⟩
  have ht := processRecords_total (extractRows pg) store0 zeroStats now store1 s1 hproc
  simpa [zeroStats] using ht

theorem missing_total_first_page_witness :
    ((badTotalPage.totalFilas = none ∨ badTotalPage.totalFilas = some .vnull) →
      computeTotal badTotalPage = some 0)
    ∧ runMain fetchBadTotal 0 200 200 [] =
        { exitCode := 0, status := .ok, errorMsg := none, store := [],
          stats := zeroStats, pagesFetched := [1] }
    ∧ zeroStats.total = (extractRows badTotalPage).length :=
  missing_total_first_page fetchBadTotal 0 200 200 [] badTotalPage [] zeroStats
    rfl (Or.inr (Or.inr ⟨"n/a", rfl, by decide, by decide⟩)) rfl

/-- C6: a transport failure on any scheduled page aborts the run with
exit code 1, the run record is finalized to `error` (never left in
`running`) carrying a non-empty message, and no page beyond the failing
one is ever fetched. -/
theorem transport_failure_aborts (fetch : Nat → Except String Page)
    (now ps mp : Nat) (store0 : List Row) (k : Nat) (e : String)
    (hfail : fetch k = .error e)
    (hk : k = 1 ∨ ∃ first, fetch 1 = .ok first ∧
      k ∈ laterPages (totalPagesOf first ps mp)) :
    (runMain fetch now ps mp store0).exitCode = 1
    ∧ (runMain fetch now ps mp store0).status = .error
    ∧ (runMain fetch now ps mp store0).status ≠ .running
    ∧ (∃ m, (runMain fetch now ps mp store0).errorMsg = some m ∧ m ≠ "")
    ∧ ∀ p ∈ (runMain fetch now ps mp store0).pagesFetched, p ≤ k := by
  rcases hk with hk1 | ⟨first, hfirst, hmem⟩
  · subst hk1
    have hrm : runMain fetch now ps mp store0 =
        { exitCode := 1, status := .error, errorMsg := some (errString e),
          store := store0, stats := zeroStats, pagesFetched := [1] } := by
      simp only [runMain, hfail]
    rw [hrm]
    refine ⟨rfl, rfl, fun hcon => RunStatus.noConfusion hcon,
      ⟨errString e, rfl, errString_ne e⟩, ?_⟩
    intro p hp
    simp only [List.mem_singleton] at hp
    omega
  · cases htp : totalPagesOf first ps mp with
    | none => rw [htp] at hmem; simp [laterPages] at hmem
    | some tp =>
        rw [htp] at hmem
        simp only [laterPages] at hmem
        have hk2 : 2 ≤ k := (List.mem_range'_1.mp hmem).1
        cases hpp : processPage store0 zeroStats now first with
        | error e2 =>
            have hrm : runMain fetch now ps mp store0 =
                { exitCode := 1, status := .error, errorMsg := some (errString e2),
                  store := store0, stats := zeroStats, pagesFetched := [1] } := by
              simp only [runMain, hfirst, hpp]
            rw [hrm]
            refine ⟨rfl, rfl, fun hcon => RunStatus.noConfusion hcon,
              ⟨errString e2, rfl, errString_ne e2⟩, ?_⟩
            intro p hp
            simp only [List.mem_singleton] at hp
            omega
        | ok pr =>
            obtain ⟨store1, stats1⟩ := pr
            obtain ⟨⟨m, herr, hmne⟩, hfet⟩ :=
              runPages_fail fetch now k e hfail ((tp - 1).toNat) 2 store1 stats1 [1] hmem
            have hrm : runMain fetch now ps mp store0 =
                { exitCode := 1, status := .error, errorMsg := some m,
                  store := (runPages fetch now (List.range' 2 (tp - 1).toNat)
                    store1 stats1 [1]).store,
                  stats := (runPages fetch now (List.range' 2 (tp - 1).toNat)
                    store1 stats1 [1]).stats,
                  pagesFetched := (runPages fetch now (List.range' 2 (tp - 1).toNat)
                    store1 stats1 [1]).fetched } := by
              simp only [runMain, hfirst, hpp, htp, laterPages, herr]
            rw [hrm]
            refine ⟨rfl, rfl, fun hcon => RunStatus.noConfusion hcon,
              ⟨m, rfl, hmne⟩, ?_⟩
            intro p hp
            rcases hfet p hp with h2 | h2
            · simp only [List.mem_singleton] at h2
              omega
            · exact h2

theorem transport_failure_aborts_witness :
    (runMain fetchFail3 0 200 200 []).exitCode = 1
    ∧ (runMain fetchFail3 0 200 200 []).status = .error
    ∧ (runMain fetchFail3 0 200 200 []).status ≠ .running
    ∧ (∃ m, (runMain fetchFail3 0 200 200 []).errorMsg = some m ∧ m ≠ "")
    ∧ ∀ p ∈ (runMain fetchFail3 0 200 200 []).pagesFetched, p ≤ 3 :=
  transport_failure_aborts fetchFail3 0 200 200 [] 3 "boom" rfl
    (Or.inr ⟨pageOk, rfl, by decide⟩)

end PharmaRaw
